import Mathlib

/-!
Verification of the Buffalo game rules engine.

The definitions below are a shallow embedding of `src/buffalo/board.py` and
`src/buffalo/game.py`: Python dicts become association lists with dict
update/delete semantics, Python strings become lists of characters, raised
exceptions become `Except.error` results paired with the object state at the
time of the raise, and in-place mutation becomes explicit state passing.
-/

namespace Buffalo

/-- Side to move: `Player` enum from board.py. -/
inductive Player where
  | BUFFALO
  | HUNTERS
deriving DecidableEq, Repr

/-- Piece kinds: `PieceType` enum from board.py, with canonical character codes. -/
inductive PieceType where
  | BUFFALO
  | DOG
  | CHIEF
deriving DecidableEq, Repr

/-- Canonical character of a piece kind (the `value` of the Python enum member). -/
def PieceType.value : PieceType → Char
  | .BUFFALO => 'B'
  | .DOG => 'D'
  | .CHIEF => 'C'

/-- Inverse of `PieceType.value`: the `PieceType(char)` enum constructor, which
raises ValueError (here: `none`) on an unknown character. -/
def PieceType.ofChar (c : Char) : Option PieceType :=
  if c = 'B' then some .BUFFALO
  else if c = 'D' then some .DOG
  else if c = 'C' then some .CHIEF
  else none

/-- Position dataclass from board.py. -/
structure Position where
  x : Int
  y : Int
deriving DecidableEq, Repr

/-- Piece dataclass from board.py. -/
structure Piece where
  type : PieceType
  player : Player
deriving DecidableEq, Repr

/-- Move dataclass from board.py; the source's `end` field is spelled
`end_pos` because `end` is a Lean keyword. -/
structure Move where
  player : Player
  piece : Piece
  start : Position
  end_pos : Position
deriving DecidableEq, Repr

/-- GameOverReason enum from board.py. -/
inductive GameOverReason where
  | BUFFALO_CROSSED
  | BUFFALO_STUCK
  | BUFFALO_EXTINCT
deriving DecidableEq, Repr

/-- Python dict lookup `d.get(k)` on an association list. -/
def dictGet : List ((Int × Int) × Piece) → Int × Int → Option Piece
  | [], _ => none
  | (k, p) :: rest, q => if k = q then some p else dictGet rest q

/-- Python dict assignment `d[k] = v`: replace the value in place if the key is
present, otherwise append the binding at the end (insertion order). -/
def dictSet : List ((Int × Int) × Piece) → Int × Int → Piece → List ((Int × Int) × Piece)
  | [], k, v => [(k, v)]
  | (k', v') :: rest, k, v =>
      if k' = k then (k, v) :: rest else (k', v') :: dictSet rest k v

/-- Python dict deletion `del d[k]`. -/
def dictDel : List ((Int × Int) × Piece) → Int × Int → List ((Int × Int) × Piece)
  | [], _ => []
  | (k', v') :: rest, k =>
      if k' = k then rest else (k', v') :: dictDel rest k

/-- Board state from board.py: piece placement, side to move, and move counter. -/
structure Board where
  pieces : List ((Int × Int) × Piece)
  current_player : Player
  move_number : Nat
deriving DecidableEq, Repr

/-- Class attribute `Board.width = 11`. -/
def Board.width : Nat := 11

/-- Class attribute `Board.height = 7`. -/
def Board.height : Nat := 7

/-- Class attribute `Board._INITIAL_DOG_FILES`. -/
def Board.INITIAL_DOG_FILES : List Nat := [3, 4, 6, 7]

/-- Class attribute `Board._INITIAL_KING_FILE`. -/
def Board.INITIAL_KING_FILE : Nat := 5

/-- The piece placement produced by `Board.initialize_board` on the empty dict:
buffalo across the top rank, dogs and chief on the second-to-bottom rank. -/
def Board.initialize_board : List ((Int × Int) × Piece) :=
  let d := (List.range Board.width).foldl
    (fun d x => dictSet d ((x : Int), 0) ⟨.BUFFALO, .BUFFALO⟩) []
  let d := Board.INITIAL_DOG_FILES.foldl
    (fun d x => dictSet d ((x : Int), (Board.height : Int) - 2) ⟨.DOG, .HUNTERS⟩) d
  dictSet d ((Board.INITIAL_KING_FILE : Int), (Board.height : Int) - 2) ⟨.CHIEF, .HUNTERS⟩

/-- A fresh `Board()`: initial setup, buffalo to move, move counter zero. -/
def Board.init : Board :=
  { pieces := Board.initialize_board, current_player := .BUFFALO, move_number := 0 }

/-- Method `Board.get_piece_at`. -/
def Board.get_piece_at (b : Board) (x y : Int) : Option Piece :=
  dictGet b.pieces (x, y)

/-- Method `Board.switch_player` as a pure function on the side to move. -/
def switch_player : Player → Player
  | .BUFFALO => .HUNTERS
  | .HUNTERS => .BUFFALO

/-- Method `Board._is_destination_inside_board`. -/
def Board.is_destination_inside_board (x y : Int) : Bool :=
  decide (0 ≤ x ∧ x < (Board.width : Int) ∧ 0 ≤ y ∧ y < (Board.height : Int))

/-- Method `Board._is_valid_move`. The Python method begins with
`assert piece.player == self.current_player`; that assert is an implementation
precondition (both call sites check ownership first), so it is not part of the
returned value here and the theorems below carry the ownership hypothesis
instead. -/
def Board.is_valid_move (b : Board) (piece : Piece) (from_x from_y to_x to_y : Int) : Bool :=
  if ¬ Board.is_destination_inside_board to_x to_y then false
  else if from_x = to_x ∧ from_y = to_y then false
  else
    let piece_at_destination := b.get_piece_at to_x to_y
    let is_destination_empty := piece_at_destination.isNone
    let destination_not_on_bottom_row : Bool := decide (to_y ≠ (Board.height : Int) - 1)
    let destination_not_on_top_row : Bool := decide (to_y ≠ 0)
    match piece.type with
    | .BUFFALO =>
        let is_one_move_down : Bool := decide (to_y = from_y + 1 ∧ from_x = to_x)
        is_one_move_down && is_destination_empty
    | .CHIEF =>
        let delta_x := (to_x - from_x).natAbs
        let delta_y := (to_y - from_y).natAbs
        let is_kinglike_move : Bool := decide (delta_x ≤ 1 ∧ delta_y ≤ 1)
        if ¬ is_kinglike_move then false
        else if ¬ destination_not_on_bottom_row then false
        else if ¬ destination_not_on_top_row then false
        else if is_destination_empty then true
        else match piece_at_destination with
          | some pd => decide (pd.player ≠ piece.player)
          | none => false
    | .DOG =>
        if ¬ is_destination_empty then false
        else if ¬ destination_not_on_top_row then false
        else if ¬ destination_not_on_bottom_row then false
        else
          let delta_x := (to_x - from_x).natAbs
          let delta_y := (to_y - from_y).natAbs
          let is_queen_like_move : Bool :=
            decide (delta_x = delta_y ∨ to_x = from_x ∨ to_y = from_y)
          if ¬ is_queen_like_move then false
          else
            let step_x : Int := if to_x > from_x then 1 else if to_x < from_x then -1 else 0
            let step_y : Int := if to_y > from_y then 1 else if to_y < from_y then -1 else 0
            -- the source walks (curr_x, curr_y) from the square after `from`
            -- until it reaches `to`; for a queen-like move with from ≠ to this
            -- visits exactly the squares from + k*step for k = 1 .. steps-1,
            -- where steps = max delta_x delta_y
            let steps := max delta_x delta_y
            (List.range (steps - 1)).all fun i =>
              (b.get_piece_at (from_x + step_x * ((i : Int) + 1))
                (from_y + step_y * ((i : Int) + 1))).isNone

/-- Method `Board.legal_moves`: every piece of the side to move, against every
destination square of the board, filtered by `is_valid_move`. -/
def Board.legal_moves (b : Board) : List Move :=
  b.pieces.flatMap fun e =>
    if e.2.player = b.current_player then
      (List.range Board.width).flatMap fun (to_x : Nat) =>
        (List.range Board.height).filterMap fun (to_y : Nat) =>
          if b.is_valid_move e.2 e.1.1 e.1.2 (to_x : Int) (to_y : Int) then
            some { player := b.current_player, piece := e.2,
                   start := ⟨e.1.1, e.1.2⟩, end_pos := ⟨(to_x : Int), (to_y : Int)⟩ }
          else none
    else []

/-- The for-loop at the top of `Board.check_for_winner`: scan the bottom row
left to right for a buffalo-kind piece. -/
def Board.bottom_row_scan (b : Board) : Bool :=
  (List.range Board.width).any fun (x : Nat) =>
    match b.get_piece_at (x : Int) ((Board.height : Int) - 1) with
    | some piece => piece.type = PieceType.BUFFALO
    | none => false

/-- Method `Board.check_for_winner`: buffalo-crossed scan of the bottom row,
then the buffalo-stuck check, then the buffalo-extinct check. -/
def Board.check_for_winner (b : Board) : Option Player × Option GameOverReason :=
  if b.bottom_row_scan then
    (some .BUFFALO, some .BUFFALO_CROSSED)
  else if b.current_player = Player.BUFFALO ∧ b.legal_moves = [] then
    (some .HUNTERS, some .BUFFALO_STUCK)
  else if ¬ b.pieces.any (fun e => e.2.type = PieceType.BUFFALO) then
    (some .HUNTERS, some .BUFFALO_EXTINCT)
  else
    (none, none)

/-- MoveRecord dataclass from board.py (the per-move audit record built by
`Board.move_piece` when `with_record` is true). `_copy_pieces` produces a value
copy of the dict, which in this pure embedding is the list itself. -/
structure MoveRecord where
  move_number : Nat
  from_pos : Position
  to_pos : Position
  player : Player
  piece_type : PieceType
  pieces_before : List ((Int × Int) × Piece)
  pieces_after : List ((Int × Int) × Piece)
  captured_piece : Option PieceType
  winner_after_move : Option Player
  game_over_reason : Option GameOverReason
deriving DecidableEq, Repr

/-- Method `Board.move_piece`. The Python method mutates the board in place and
raises ValueError on an illegal request; here it returns the outcome (or the
error message) together with the board state as it stands when the method
returns or raises. All three validations precede the first mutation. -/
def Board.move_piece (b : Board) (from_x from_y to_x to_y : Int) (with_record : Bool) :
    Except String (Option PieceType × Option Player × Option GameOverReason × Option MoveRecord)
      × Board :=
  match b.get_piece_at from_x from_y with
  | none => (.error "No piece at the starting position", b)
  | some piece =>
    if piece.player ≠ b.current_player then
      (.error "Piece does not belong to current player", b)
    else if ¬ b.is_valid_move piece from_x from_y to_x to_y then
      (.error "Invalid move", b)
    else
      let captured_piece := b.get_piece_at to_x to_y
      let pieces_before := b.pieces
      let pieces1 := dictSet b.pieces (to_x, to_y) piece
      let pieces2 := dictDel pieces1 (from_x, from_y)
      let pieces_after := pieces2
      let b1 : Board :=
        { pieces := pieces2,
          move_number := b.move_number + 1,
          current_player := switch_player b.current_player }
      let res := b1.check_for_winner
      let record : Option MoveRecord :=
        if with_record then
          some { move_number := b1.move_number, player := piece.player,
                 piece_type := piece.type,
                 from_pos := ⟨from_x, from_y⟩, to_pos := ⟨to_x, to_y⟩,
                 pieces_before := pieces_before, pieces_after := pieces_after,
                 captured_piece := captured_piece.map Piece.type,
                 winner_after_move := res.1, game_over_reason := res.2 }
        else none
      (.ok (captured_piece.map Piece.type, res.1, res.2, record), b1)

/-- One row of `Board.serialize`: the inner loop over x, emitting each
square's piece code or a dot. -/
def Board.serialize_row (b : Board) (y : Nat) : List Char :=
  (List.range Board.width).map fun (x : Nat) =>
    match b.get_piece_at (x : Int) (y : Int) with
    | some piece => piece.type.value
    | none => '.'

/-- Method `Board.serialize`: rows top to bottom, joined by a slash (a Python
string is modelled as a list of characters). -/
def Board.serialize (b : Board) : List Char :=
  List.intercalate ['/'] ((List.range Board.height).map b.serialize_row)

/-- One row of `Board.deserialize`: left to right, skipping dots, failing on an
unknown character, assigning the owner from the piece kind. -/
def parseRowChars (y : Nat) : List Char → Nat → Except String (List ((Int × Int) × Piece))
  | [], _ => .ok []
  | c :: rest, x =>
    if c = '.' then parseRowChars y rest (x + 1)
    else match PieceType.ofChar c with
      | none => .error ("Unknown piece token: " ++ String.mk [c])
      | some piece_type =>
        let player := if piece_type = PieceType.BUFFALO then Player.BUFFALO else Player.HUNTERS
        (parseRowChars y rest (x + 1)).map
          (fun l => (((x : Int), (y : Int)), (⟨piece_type, player⟩ : Piece)) :: l)

/-- Row loop of `Board.deserialize`: each row must have exactly `width`
characters; placements accumulate in row-major order. -/
def parseRows : List (List Char) → Nat → Except String (List ((Int × Int) × Piece))
  | [], _ => .ok []
  | row :: rest, y =>
    if row.length ≠ Board.width then
      .error "Serialized board has an unexpected row width."
    else do
      let a ← parseRowChars y row 0
      let b ← parseRows rest (y + 1)
      .ok (a ++ b)

/-- Classmethod `Board.deserialize`: split on the slash, check the row count,
parse the rows; the result always has buffalo to move and move counter zero. -/
def Board.deserialize (data : List Char) : Except String Board :=
  let rows := data.splitOn '/'
  if rows.length ≠ Board.height then
    .error "Serialized board has an unexpected number of rows."
  else
    (parseRows rows 0).map fun pieces =>
      { pieces := pieces, current_player := .BUFFALO, move_number := 0 }

/-- MoveRecord dataclass from game.py (distinct from the board.py one). The
source annotates `winner` as `Optional[Player]`, but `Game._build_record`
actually stores the 2-tuple returned by `Board.check_for_winner` in it, so the
field carries that pair here. -/
structure GameMoveRecord where
  move_number : Nat
  player : Player
  piece_type : Option PieceType
  from_pos : Option Position
  to_pos : Option Position
  board_before : List Char
  board_after : List Char
  captured_piece : Option PieceType
  legal_moves : Nat
  move_made : Bool
  game_over : Bool
  winner : Option Player × Option GameOverReason
  game_over_reason : String
deriving DecidableEq, Repr

/-- Game state from game.py (controllers are passed to `step` rather than
stored). `winner` starts as Python None and `_build_record` assigns the
2-tuple from `Board.check_for_winner` to it, hence the option-of-pair type. -/
structure Game where
  board : Board
  history : List GameMoveRecord
  move_number : Nat
  game_over : Bool
  winner : Option (Option Player × Option GameOverReason)
  game_over_reason : String
deriving DecidableEq, Repr

/-- A fresh `Game()` on a given board. -/
def Game.init (board : Board) : Game :=
  { board := board, history := [], move_number := 0, game_over := false,
    winner := none, game_over_reason := "" }

/-- Method `Game._build_record`: builds the audit record and updates the
game-over flags. In the source, `winner = self.board.check_for_winner()` binds
the 2-tuple returned by that method; a Python tuple is never None, so
`game_over = winner is not None` is always True, the
`if not game_over and move_made` branch is unreachable, and
`winner == Player.BUFFALO` compares a tuple with an enum member and is always
False (so the reason is never rewritten to "buffalo_reached_end"). -/
def Game.build_record (g : Game) (move_number : Nat) (player : Player)
    (piece_type : Option PieceType) (from_pos to_pos : Option Position)
    (board_before board_after : List Char) (captured_piece : Option PieceType)
    (legal_moves_count : Nat) (move_made : Bool) (game_over_reason : String) :
    GameMoveRecord × Game :=
  let winner := g.board.check_for_winner
  let game_over := true
  let g1 := { g with game_over := true, winner := some winner,
                     game_over_reason := game_over_reason }
  ({ move_number := move_number, player := player, piece_type := piece_type,
     from_pos := from_pos, to_pos := to_pos,
     board_before := board_before, board_after := board_after,
     captured_piece := captured_piece, legal_moves := legal_moves_count,
     move_made := move_made, game_over := game_over, winner := winner,
     game_over_reason := game_over_reason }, g1)

/-- Method `Game._record_no_moves`. -/
def Game.record_no_moves (g : Game) (legal_moves_count : Nat) : GameMoveRecord × Game :=
  let board_state := g.board.serialize
  let (record, g1) := g.build_record g.move_number g.board.current_player none none none
    board_state board_state none legal_moves_count false "no_moves"
  (record, { g1 with history := g1.history ++ [record] })

/-- Method `Game.apply_move`. Returning `.ok none` models the source's early
`return None` paths, and `.error` models a ValueError propagating out of
`Board.move_piece` (the source's `if not moved` test is never taken, because
`move_piece` returns a non-empty tuple, which is truthy). -/
def Game.apply_move (g : Game) (from_pos to_pos : Position)
    (legal_moves_count : Option Nat) : Except String (Option GameMoveRecord) × Game :=
  if g.game_over then (.ok none, g)
  else
    let mover := g.board.current_player
    let board_before := g.board.serialize
    let legal_moves := g.board.legal_moves
    let lmc := legal_moves_count.getD legal_moves.length
    match g.board.get_piece_at from_pos.x from_pos.y with
    | none => (.ok none, g)
    | some piece =>
      if piece.player ≠ mover then (.ok none, g)
      else
        let captured_piece := g.board.get_piece_at to_pos.x to_pos.y
        match g.board.move_piece from_pos.x from_pos.y to_pos.x to_pos.y true with
        | (.error e, b1) => (.error e, { g with board := b1 })
        | (.ok _, b1) =>
          let board_after := b1.serialize
          let g1 := { g with board := b1, move_number := g.move_number + 1 }
          let (record, g2) := g1.build_record g1.move_number mover (some piece.type)
            (some from_pos) (some to_pos) board_before board_after
            (captured_piece.map Piece.type) lmc true ""
          (.ok (some record), { g2 with history := g2.history ++ [record] })

/-- Method `Game.controller_for_current_player`. -/
def Game.controller_for_current_player (g : Game)
    (buffalo_controller hunter_controller : Option (Game → Option Move)) :
    Option (Game → Option Move) :=
  if g.board.current_player = Player.BUFFALO then buffalo_controller else hunter_controller

/-- Method `Game.step`: no-op when the game is over or no controller is
registered, a no-moves record when the legal-move list is empty or the
controller declines, otherwise `apply_move` on the chosen move. -/
def Game.step (g : Game)
    (buffalo_controller hunter_controller : Option (Game → Option Move)) :
    Except String (Option GameMoveRecord) × Game :=
  if g.game_over then (.ok none, g)
  else
    match g.controller_for_current_player buffalo_controller hunter_controller with
    | none => (.ok none, g)
    | some choose =>
      let legal_moves := g.board.legal_moves
      if legal_moves.isEmpty then
        let (record, g1) := g.record_no_moves 0
        (.ok (some record), g1)
      else
        match choose g with
        | none =>
          let (record, g1) := g.record_no_moves legal_moves.length
          (.ok (some record), g1)
        | some move => g.apply_move move.start move.end_pos (some legal_moves.length)

/-! Helper predicates used by the theorem statements. -/

/-- All piece positions lie on the board. -/
def Board.pieces_in_bounds (b : Board) : Prop :=
  ∀ e ∈ b.pieces, 0 ≤ e.1.1 ∧ e.1.1 < (Board.width : Int) ∧
    0 ≤ e.1.2 ∧ e.1.2 < (Board.height : Int)

/-- The owner of a piece is determined by its kind: buffalo-kind pieces belong
to the Buffalo side, dogs and chiefs to the Hunters. -/
def Piece.owner_consistent (p : Piece) : Prop :=
  p.player = (if p.type = PieceType.BUFFALO then Player.BUFFALO else Player.HUNTERS)

/-- The kind/owner invariant over a whole placement. -/
def Board.kind_owner_invariant (b : Board) : Prop :=
  ∀ e ∈ b.pieces, e.2.owner_consistent

/-! Association-list lemmas for the dict operations. -/

lemma dictGet_mem {l : List ((Int × Int) × Piece)} {q : Int × Int} {p : Piece}
    (h : dictGet l q = some p) : (q, p) ∈ l := by
  induction l with
  | nil => simp [dictGet] at h
  | cons e rest ih =>
    obtain ⟨k, v⟩ := e
    by_cases hk : k = q
    · subst hk
      simp [dictGet] at h
      simp [h]
    · simp [dictGet, hk] at h
      exact List.mem_cons_of_mem _ (ih h)

lemma dictGet_dictSet (l : List ((Int × Int) × Piece)) (k q : Int × Int) (v : Piece) :
    dictGet (dictSet l k v) q = if k = q then some v else dictGet l q := by
  induction l with
  | nil => by_cases h : k = q <;> simp [dictSet, dictGet, h]
  | cons e rest ih =>
    obtain ⟨k', v'⟩ := e
    by_cases hk : k' = k
    · subst hk
      by_cases hq : k' = q <;> simp [dictSet, dictGet, hq]
    · by_cases hq : k' = q
      · subst hq
        have : ¬ k = k' := fun h => hk h.symm
        simp [dictSet, dictGet, hk, this]
      · simp [dictSet, dictGet, hk, hq, ih]

lemma dictGet_dictDel_ne (l : List ((Int × Int) × Piece)) (k q : Int × Int)
    (h : k ≠ q) : dictGet (dictDel l k) q = dictGet l q := by
  induction l with
  | nil => simp [dictDel]
  | cons e rest ih =>
    obtain ⟨k', v'⟩ := e
    by_cases hk : k' = k
    · subst hk
      have : ¬ k' = q := fun hq => h (hq ▸ rfl)
      simp [dictDel, dictGet, this]
    · simp [dictDel, dictGet, hk]
      by_cases hq : k' = q <;> simp [dictGet, hq, ih]

lemma dictGet_eq_none_of_not_mem_keys {l : List ((Int × Int) × Piece)} {q : Int × Int}
    (h : ∀ e ∈ l, e.1 ≠ q) : dictGet l q = none := by
  induction l with
  | nil => rfl
  | cons e rest ih =>
    obtain ⟨k, v⟩ := e
    have hk : k ≠ q := h (k, v) (List.mem_cons_self _ _)
    simp only [dictGet, if_neg hk]
    exact ih fun e he => h e (List.mem_cons_of_mem _ he)

lemma dictGet_dictDel_self {l : List ((Int × Int) × Piece)} {k : Int × Int}
    (hnd : (l.map Prod.fst).Nodup) : dictGet (dictDel l k) k = none := by
  induction l with
  | nil => rfl
  | cons e rest ih =>
    obtain ⟨k', v'⟩ := e
    simp only [List.map_cons, List.nodup_cons] at hnd
    by_cases hk : k' = k
    · subst hk
      simp only [dictDel, if_pos rfl]
      exact dictGet_eq_none_of_not_mem_keys fun e he hek => by
        exact hnd.1 (hek ▸ List.mem_map_of_mem Prod.fst he)
    · simp only [dictDel, if_neg hk, dictGet, if_neg hk]
      exact ih hnd.2

/-! Characterizations of the legality predicate, one per piece kind. -/

/-- The destination-inside-the-board test, as a proposition. -/
def inside_board (x y : Int) : Prop :=
  0 ≤ x ∧ x < (Board.width : Int) ∧ 0 ≤ y ∧ y < (Board.height : Int)

lemma inside_board_iff (x y : Int) :
    Board.is_destination_inside_board x y = true ↔ inside_board x y := by
  simp [Board.is_destination_inside_board, inside_board]

lemma buffalo_valid_iff (b : Board) (piece : Piece) (fx fy tx ty : Int)
    (ht : piece.type = PieceType.BUFFALO) :
    b.is_valid_move piece fx fy tx ty = true ↔
      inside_board tx ty ∧ ¬(tx = fx ∧ ty = fy) ∧
        tx = fx ∧ ty = fy + 1 ∧ b.get_piece_at tx ty = none := by
  obtain ⟨pt, pp⟩ := piece
  simp only at ht
  subst ht
  simp only [Board.is_valid_move]
  by_cases hin : Board.is_destination_inside_board tx ty = true
  · by_cases hne : fx = tx ∧ fy = ty
    · simp [hin, hne, (inside_board_iff tx ty).mp hin]
    · simp [hin, hne, (inside_board_iff tx ty).mp hin, Option.isNone_iff_eq_none]
      tauto
  · simp only [Bool.not_eq_true] at hin
    simp [hin]
    intro h
    exact absurd (((inside_board_iff tx ty).mpr h)) (by simp [hin])

lemma chief_valid_iff (b : Board) (piece : Piece) (fx fy tx ty : Int)
    (ht : piece.type = PieceType.CHIEF) :
    b.is_valid_move piece fx fy tx ty = true ↔
      inside_board tx ty ∧ ¬(tx = fx ∧ ty = fy) ∧
        (tx - fx).natAbs ≤ 1 ∧ (ty - fy).natAbs ≤ 1 ∧
        ty ≠ (Board.height : Int) - 1 ∧ ty ≠ 0 ∧
        (b.get_piece_at tx ty = none ∨
          ∃ pd, b.get_piece_at tx ty = some pd ∧ pd.player ≠ piece.player) := by
  obtain ⟨pt, pp⟩ := piece
  simp only at ht
  subst ht
  simp only [Board.is_valid_move]
  by_cases hin : Board.is_destination_inside_board tx ty = true
  · by_cases hne : fx = tx ∧ fy = ty
    · simp [hin, hne, (inside_board_iff tx ty).mp hin]
    · have hne2 : ¬(tx = fx ∧ ty = fy) := fun h => hne ⟨h.1.symm, h.2.symm⟩
      simp only [hin, hne, not_true_eq_false, not_false_eq_true, if_false, if_true,
        (inside_board_iff tx ty).mp hin, true_and]
      cases hdest : b.get_piece_at tx ty with
      | none =>
        by_cases h1 : (tx - fx).natAbs ≤ 1 <;>
        by_cases h2 : (ty - fy).natAbs ≤ 1 <;>
        by_cases h3 : ty = (Board.height : Int) - 1 <;>
        by_cases h4 : ty = (0 : Int) <;>
        simp [hdest, Option.isNone, h1, h2, h3, h4, hne2]
      | some pd =>
        by_cases h1 : (tx - fx).natAbs ≤ 1 <;>
        by_cases h2 : (ty - fy).natAbs ≤ 1 <;>
        by_cases h3 : ty = (Board.height : Int) - 1 <;>
        by_cases h4 : ty = (0 : Int) <;>
        simp [hdest, Option.isNone, h1, h2, h3, h4, hne2]
  · simp only [Bool.not_eq_true] at hin
    simp [hin]
    intro h
    exact absurd (((inside_board_iff tx ty).mpr h)) (by simp [hin])

/-- The direction of one step of the dog's sliding walk (the sign of the
coordinate delta, as computed in the source). -/
def step_dir (f t : Int) : Int :=
  if t > f then 1 else if t < f then -1 else 0

lemma dog_valid_iff (b : Board) (piece : Piece) (fx fy tx ty : Int)
    (ht : piece.type = PieceType.DOG) :
    b.is_valid_move piece fx fy tx ty = true ↔
      inside_board tx ty ∧ ¬(tx = fx ∧ ty = fy) ∧
        b.get_piece_at tx ty = none ∧ ty ≠ 0 ∧ ty ≠ (Board.height : Int) - 1 ∧
        ((tx - fx).natAbs = (ty - fy).natAbs ∨ tx = fx ∨ ty = fy) ∧
        (∀ k : Nat, 0 < k → k < max (tx - fx).natAbs (ty - fy).natAbs →
          b.get_piece_at (fx + step_dir fx tx * (k : Int))
            (fy + step_dir fy ty * (k : Int)) = none) := by
  obtain ⟨pt, pp⟩ := piece
  simp only at ht
  subst ht
  simp only [Board.is_valid_move]
  by_cases hin : Board.is_destination_inside_board tx ty = true
  · by_cases hne : fx = tx ∧ fy = ty
    · simp [hin, hne, (inside_board_iff tx ty).mp hin]
    · have hne2 : ¬(tx = fx ∧ ty = fy) := fun h => hne ⟨h.1.symm, h.2.symm⟩
      simp only [hin, hne, not_true_eq_false, not_false_eq_true, if_false, if_true,
        (inside_board_iff tx ty).mp hin, true_and]
      cases hdest : b.get_piece_at tx ty with
      | some pd => simp [hdest, Option.isNone]
      | none =>
        by_cases h2 : ty = (0 : Int)
        · simp [hdest, Option.isNone, h2]
        · by_cases h3 : ty = (Board.height : Int) - 1
          · simp [hdest, Option.isNone, h2, h3]
          · by_cases h4 : (tx - fx).natAbs = (ty - fy).natAbs ∨ tx = fx ∨ ty = fy
            · simp only [hdest, Option.isNone_iff_eq_none, h2, h3, h4, hne2, decide_eq_true_eq,
                not_true_eq_false, not_false_eq_true, if_false, if_true, decide_not,
                ite_true, ite_false, decide_False, decide_True, Bool.not_true,
                Bool.not_false, decide_eq_false_iff_not, not_not, List.all_eq_true,
                List.mem_range, true_and, and_true, not_true, not_false_iff,
                eq_self_iff_true, iff_true, true_iff, ne_eq, step_dir]
              constructor
              · intro h k hk0 hk
                have hk1 : k - 1 < max (tx - fx).natAbs (ty - fy).natAbs - 1 := by omega
                have := h (k - 1) hk1
                have hcast : ((k - 1 : Nat) : Int) + 1 = (k : Int) := by
                  push_cast [Nat.cast_sub hk0]
                  ring
                rwa [hcast] at this
              · intro h i hi
                have := h (i + 1) (Nat.succ_pos i) (by omega)
                have hcast : ((i + 1 : Nat) : Int) = (i : Int) + 1 := by push_cast; ring
                rwa [← hcast]
            · simp [hdest, Option.isNone, h2, h3, h4]
  · simp only [Bool.not_eq_true] at hin
    simp [hin]
    intro h
    exact absurd (((inside_board_iff tx ty).mpr h)) (by simp [hin])

lemma valid_imp_basic {b : Board} {piece : Piece} {fx fy tx ty : Int}
    (h : b.is_valid_move piece fx fy tx ty = true) :
    inside_board tx ty ∧ ¬(fx = tx ∧ fy = ty) := by
  by_cases hin : Board.is_destination_inside_board tx ty = true
  · by_cases hne : fx = tx ∧ fy = ty
    · simp [Board.is_valid_move, hin, hne] at h
    · exact ⟨(inside_board_iff tx ty).mp hin, hne⟩
  · simp [Board.is_valid_move, hin] at h

lemma exists_of_mem_legal_moves {b : Board} {m : Move} (h : m ∈ b.legal_moves) :
    ∃ fx fy piece, ((fx, fy), piece) ∈ b.pieces ∧
      piece.player = b.current_player ∧ m.player = b.current_player ∧
      m.piece = piece ∧ m.start = ⟨fx, fy⟩ ∧
      ∃ tx ty : Nat, tx < Board.width ∧ ty < Board.height ∧
        m.end_pos = ⟨(tx : Int), (ty : Int)⟩ ∧
        b.is_valid_move piece fx fy (tx : Int) (ty : Int) = true := by
  simp only [Board.legal_moves] at h
  rw [List.mem_flatMap] at h
  obtain ⟨e, he, hm⟩ := h
  by_cases hp : e.2.player = b.current_player
  · rw [if_pos hp, List.mem_flatMap] at hm
    obtain ⟨tx, htx, hm⟩ := hm
    rw [List.mem_range] at htx
    rw [List.mem_filterMap] at hm
    obtain ⟨ty, hty, hf⟩ := hm
    rw [List.mem_range] at hty
    by_cases hv : b.is_valid_move e.2 e.1.1 e.1.2 (tx : Int) (ty : Int) = true
    · rw [if_pos hv] at hf
      obtain rfl := Option.some.inj hf
      exact ⟨e.1.1, e.1.2, e.2, by simpa using he, hp, rfl, rfl, rfl,
        tx, ty, htx, hty, rfl, hv⟩
    · rw [if_neg hv] at hf
      exact absurd hf (by simp)
  · rw [if_neg hp] at hm
    simp at hm

/-! Concrete scenario boards from the spec. -/

/-- A lone buffalo at the origin blocked by a dog directly below it. -/
def stuck_board : Board :=
  { pieces := [((0, 0), ⟨.BUFFALO, .BUFFALO⟩), ((0, 1), ⟨.DOG, .HUNTERS⟩)],
    current_player := .BUFFALO, move_number := 0 }

/-- An otherwise empty board with a chief at (5,5), hunters to move. -/
def chief_board : Board :=
  { pieces := [((5, 5), ⟨.CHIEF, .HUNTERS⟩)], current_player := .HUNTERS, move_number := 0 }

/-- An otherwise empty board with a dog at (5,5), hunters to move. -/
def dog_board : Board :=
  { pieces := [((5, 5), ⟨.DOG, .HUNTERS⟩)], current_player := .HUNTERS, move_number := 0 }

/-- Like `dog_board` but with a second, blocking dog at (6,5). -/
def dog_blocked_board : Board :=
  { pieces := [((5, 5), ⟨.DOG, .HUNTERS⟩), ((6, 5), ⟨.DOG, .HUNTERS⟩)],
    current_player := .HUNTERS, move_number := 0 }

/-- C4: a buffalo move is legal iff the destination is inside the board,
differs from the start, is in the same column exactly one row down, and is
empty; consequently `legal_moves` never contains an out-of-bounds move, a
null move, or a buffalo move that is not one row forward into an empty
square. -/
theorem C4_buffalo_legality (b : Board) (piece : Piece) (fx fy tx ty : Int)
    (ht : piece.type = PieceType.BUFFALO) (hp : piece.player = b.current_player) :
    (b.is_valid_move piece fx fy tx ty = true ↔
      inside_board tx ty ∧ ¬(tx = fx ∧ ty = fy) ∧ tx = fx ∧ ty = fy + 1 ∧
        b.get_piece_at tx ty = none) ∧
    ∀ m ∈ b.legal_moves,
      inside_board m.end_pos.x m.end_pos.y ∧ m.start ≠ m.end_pos ∧
      (m.piece.type = PieceType.BUFFALO →
        m.end_pos.x = m.start.x ∧ m.end_pos.y = m.start.y + 1 ∧
          b.get_piece_at m.end_pos.x m.end_pos.y = none) := by
  refine ⟨buffalo_valid_iff b piece fx fy tx ty ht, ?_⟩
  intro m hm
  obtain ⟨fx2, fy2, p2, hmem, hp2, hmp, hmpiece, hmstart, tx2, ty2, htx2, hty2,
    hmend, hv⟩ := exists_of_mem_legal_moves hm
  obtain ⟨hin, hne⟩ := valid_imp_basic hv
  refine ⟨by rw [hmend]; exact hin, ?_, ?_⟩
  · rw [hmstart, hmend]
    intro hcontra
    exact hne ⟨congrArg Position.x hcontra, congrArg Position.y hcontra⟩
  · intro hbuf
    rw [hmpiece] at hbuf
    have := (buffalo_valid_iff b p2 fx2 fy2 (tx2 : Int) (ty2 : Int) hbuf).mp hv
    rw [hmstart, hmend]
    exact ⟨this.2.2.1, this.2.2.2.1, this.2.2.2.2⟩

/-- C4 witness: the theorem applied to the opening buffalo move of the initial
board. -/
theorem C4_buffalo_legality_witness :
    (Piece.mk .BUFFALO .BUFFALO).type = PieceType.BUFFALO ∧
    (Piece.mk .BUFFALO .BUFFALO).player = Board.init.current_player ∧
    ((Board.init.is_valid_move ⟨.BUFFALO, .BUFFALO⟩ 0 0 0 1 = true ↔
      inside_board 0 1 ∧ ¬((0 : Int) = 0 ∧ (1 : Int) = 0) ∧ (0 : Int) = 0 ∧
        (1 : Int) = 0 + 1 ∧ Board.init.get_piece_at 0 1 = none) ∧
    ∀ m ∈ Board.init.legal_moves,
      inside_board m.end_pos.x m.end_pos.y ∧ m.start ≠ m.end_pos ∧
      (m.piece.type = PieceType.BUFFALO →
        m.end_pos.x = m.start.x ∧ m.end_pos.y = m.start.y + 1 ∧
          Board.init.get_piece_at m.end_pos.x m.end_pos.y = none)) :=
  ⟨rfl, rfl, C4_buffalo_legality Board.init ⟨.BUFFALO, .BUFFALO⟩ 0 0 0 1 rfl rfl⟩

/-- C5: a chief move is legal iff the destination is inside the board, differs
from the start, is king-like, avoids the top and bottom rows, and is empty or
holds an opposing piece; a chief on (5,5) can never move to (5,6) whatever
stands there, while (5,5) to (6,4) is legal on an otherwise empty board. -/
theorem C5_chief_legality (b : Board) (piece : Piece) (fx fy tx ty : Int)
    (ht : piece.type = PieceType.CHIEF) (hp : piece.player = b.current_player) :
    (b.is_valid_move piece fx fy tx ty = true ↔
      inside_board tx ty ∧ ¬(tx = fx ∧ ty = fy) ∧
        (tx - fx).natAbs ≤ 1 ∧ (ty - fy).natAbs ≤ 1 ∧
        ty ≠ (Board.height : Int) - 1 ∧ ty ≠ 0 ∧
        (b.get_piece_at tx ty = none ∨
          ∃ pd, b.get_piece_at tx ty = some pd ∧ pd.player ≠ piece.player)) ∧
    (∀ (b2 : Board) (p2 : Piece), p2.type = PieceType.CHIEF →
      b2.is_valid_move p2 5 5 5 6 = false) ∧
    chief_board.is_valid_move ⟨.CHIEF, .HUNTERS⟩ 5 5 6 4 = true := by
  refine ⟨chief_valid_iff b piece fx fy tx ty ht, ?_, by decide⟩
  intro b2 p2 ht2
  rw [← Bool.not_eq_true]
  intro hv
  have := (chief_valid_iff b2 p2 5 5 5 6 ht2).mp hv
  exact this.2.2.2.2.1 (by decide)

/-- C5 witness: the theorem applied to the chief on `chief_board`. -/
theorem C5_chief_legality_witness :
    (Piece.mk .CHIEF .HUNTERS).type = PieceType.CHIEF ∧
    (Piece.mk .CHIEF .HUNTERS).player = chief_board.current_player ∧
    ((chief_board.is_valid_move ⟨.CHIEF, .HUNTERS⟩ 5 5 6 4 = true ↔
      inside_board 6 4 ∧ ¬((6 : Int) = 5 ∧ (4 : Int) = 5) ∧
        ((6 : Int) - 5).natAbs ≤ 1 ∧ ((4 : Int) - 5).natAbs ≤ 1 ∧
        (4 : Int) ≠ (Board.height : Int) - 1 ∧ (4 : Int) ≠ 0 ∧
        (chief_board.get_piece_at 6 4 = none ∨
          ∃ pd, chief_board.get_piece_at 6 4 = some pd ∧
            pd.player ≠ (Piece.mk .CHIEF .HUNTERS).player)) ∧
    (∀ (b2 : Board) (p2 : Piece), p2.type = PieceType.CHIEF →
      b2.is_valid_move p2 5 5 5 6 = false) ∧
    chief_board.is_valid_move ⟨.CHIEF, .HUNTERS⟩ 5 5 6 4 = true) :=
  ⟨rfl, rfl, C5_chief_legality chief_board ⟨.CHIEF, .HUNTERS⟩ 5 5 6 4 rfl rfl⟩

/-- C6: a dog move is legal iff the destination is inside the board, differs
from the start, is empty, avoids the top and bottom rows, is queen-like, and
the path strictly between start and destination is empty; (5,5) to (7,6) is
never legal, (5,5) to (7,5) is legal on an empty rank, and a blocker at (6,5)
makes (5,5) to (7,5) illegal. -/
theorem C6_dog_legality (b : Board) (piece : Piece) (fx fy tx ty : Int)
    (ht : piece.type = PieceType.DOG) (hp : piece.player = b.current_player) :
    (b.is_valid_move piece fx fy tx ty = true ↔
      inside_board tx ty ∧ ¬(tx = fx ∧ ty = fy) ∧
        b.get_piece_at tx ty = none ∧ ty ≠ 0 ∧ ty ≠ (Board.height : Int) - 1 ∧
        ((tx - fx).natAbs = (ty - fy).natAbs ∨ tx = fx ∨ ty = fy) ∧
        (∀ k : Nat, 0 < k → k < max (tx - fx).natAbs (ty - fy).natAbs →
          b.get_piece_at (fx + step_dir fx tx * (k : Int))
            (fy + step_dir fy ty * (k : Int)) = none)) ∧
    (∀ (b2 : Board) (p2 : Piece), p2.type = PieceType.DOG →
      b2.is_valid_move p2 5 5 7 6 = false) ∧
    dog_board.is_valid_move ⟨.DOG, .HUNTERS⟩ 5 5 7 5 = true ∧
    dog_blocked_board.is_valid_move ⟨.DOG, .HUNTERS⟩ 5 5 7 5 = false := by
  refine ⟨dog_valid_iff b piece fx fy tx ty ht, ?_, by decide, by decide⟩
  intro b2 p2 ht2
  rw [← Bool.not_eq_true]
  intro hv
  have := (dog_valid_iff b2 p2 5 5 7 6 ht2).mp hv
  rcases this.2.2.2.2.2.1 with h | h | h
  · simp at h
  · exact absurd h (by decide)
  · exact absurd h (by decide)

/-- C6 witness: the theorem applied to the sliding dog on `dog_board`. -/
theorem C6_dog_legality_witness :
    (Piece.mk .DOG .HUNTERS).type = PieceType.DOG ∧
    (Piece.mk .DOG .HUNTERS).player = dog_board.current_player ∧
    ((dog_board.is_valid_move ⟨.DOG, .HUNTERS⟩ 5 5 7 5 = true ↔
      inside_board 7 5 ∧ ¬((7 : Int) = 5 ∧ (5 : Int) = 5) ∧
        dog_board.get_piece_at 7 5 = none ∧ (5 : Int) ≠ 0 ∧
        (5 : Int) ≠ (Board.height : Int) - 1 ∧
        (((7 : Int) - 5).natAbs = ((5 : Int) - 5).natAbs ∨ (7 : Int) = 5 ∨
          (5 : Int) = 5) ∧
        (∀ k : Nat, 0 < k → k < max ((7 : Int) - 5).natAbs ((5 : Int) - 5).natAbs →
          dog_board.get_piece_at (5 + step_dir 5 7 * (k : Int))
            (5 + step_dir 5 5 * (k : Int)) = none)) ∧
    (∀ (b2 : Board) (p2 : Piece), p2.type = PieceType.DOG →
      b2.is_valid_move p2 5 5 7 6 = false) ∧
    dog_board.is_valid_move ⟨.DOG, .HUNTERS⟩ 5 5 7 5 = true ∧
    dog_blocked_board.is_valid_move ⟨.DOG, .HUNTERS⟩ 5 5 7 5 = false) :=
  ⟨rfl, rfl, C6_dog_legality dog_board ⟨.DOG, .HUNTERS⟩ 5 5 7 5 rfl rfl⟩

/-- A buffalo-kind piece stands somewhere on the bottom row of the board. -/
def buffalo_on_bottom_row (b : Board) : Prop :=
  ∃ (x : Int) (p : Piece), b.get_piece_at x ((Board.height : Int) - 1) = some p ∧
    p.type = PieceType.BUFFALO

lemma bottom_row_scan_iff (b : Board) (hb : b.pieces_in_bounds) :
    b.bottom_row_scan = true ↔ buffalo_on_bottom_row b := by
  simp only [Board.bottom_row_scan, List.any_eq_true, List.mem_range,
    buffalo_on_bottom_row]
  constructor
  · rintro ⟨x, hx, hmatch⟩
    cases hgp : b.get_piece_at (x : Int) ((Board.height : Int) - 1) with
    | none => rw [hgp] at hmatch; simp at hmatch
    | some p =>
      rw [hgp] at hmatch
      simp only [decide_eq_true_eq] at hmatch
      exact ⟨(x : Int), p, hgp, hmatch⟩
  · rintro ⟨x, p, hx, htype⟩
    have hmem := dictGet_mem (l := b.pieces) (q := (x, (Board.height : Int) - 1)) (p := p) hx
    obtain ⟨hx0, hx1, -, -⟩ :
        (0 : Int) ≤ x ∧ x < (Board.width : Int) ∧ (0 : Int) ≤ (Board.height : Int) - 1 ∧
          (Board.height : Int) - 1 < (Board.height : Int) := hb _ hmem
    refine ⟨x.toNat, ?_, ?_⟩
    · have : ((x.toNat : Nat) : Int) = x := Int.toNat_of_nonneg hx0
      omega
    · rw [Int.toNat_of_nonneg hx0, hx]
      simp [htype]

/-- C2: `check_for_winner` reports the buffalo crossing exactly when a
buffalo-kind piece stands on the bottom row; otherwise the stuck check, then
the extinct check, then the ongoing result, in that priority order; and the
lone-buffalo-blocked-by-a-dog board is reported as buffalo stuck. -/
theorem C2_check_for_winner (b : Board) (hb : b.pieces_in_bounds) :
    (b.check_for_winner = (some Player.BUFFALO, some GameOverReason.BUFFALO_CROSSED) ↔
      buffalo_on_bottom_row b) ∧
    (¬ buffalo_on_bottom_row b → b.current_player = Player.BUFFALO →
      b.legal_moves = [] →
      b.check_for_winner = (some Player.HUNTERS, some GameOverReason.BUFFALO_STUCK)) ∧
    (¬ buffalo_on_bottom_row b →
      ¬ (b.current_player = Player.BUFFALO ∧ b.legal_moves = []) →
      (∀ e ∈ b.pieces, e.2.type ≠ PieceType.BUFFALO) →
      b.check_for_winner = (some Player.HUNTERS, some GameOverReason.BUFFALO_EXTINCT)) ∧
    (¬ buffalo_on_bottom_row b →
      ¬ (b.current_player = Player.BUFFALO ∧ b.legal_moves = []) →
      (∃ e ∈ b.pieces, e.2.type = PieceType.BUFFALO) →
      b.check_for_winner = (none, none)) ∧
    stuck_board.check_for_winner = (some Player.HUNTERS, some GameOverReason.BUFFALO_STUCK) := by
  refine ⟨?_, ?_, ?_, ?_, by decide⟩
  · rw [← bottom_row_scan_iff b hb]
    by_cases hscan : b.bottom_row_scan = true
    · simp [Board.check_for_winner, hscan]
    · simp only [Bool.not_eq_true] at hscan
      simp only [Board.check_for_winner, hscan, Bool.false_eq_true, if_false,
        iff_false]
      intro h
      by_cases h2 : b.current_player = Player.BUFFALO ∧ b.legal_moves = [] <;>
        by_cases h3 : b.pieces.any (fun e => e.2.type = PieceType.BUFFALO) = true <;>
        simp [h2, h3] at h
  · intro hcross hturn hempty
    have hscan : ¬ b.bottom_row_scan = true := fun h =>
      hcross ((bottom_row_scan_iff b hb).mp h)
    simp [Board.check_for_winner, hscan, hturn, hempty]
  · intro hcross hnostuck hnobuf
    have hscan : ¬ b.bottom_row_scan = true := fun h =>
      hcross ((bottom_row_scan_iff b hb).mp h)
    have hany : ¬ b.pieces.any (fun e => e.2.type = PieceType.BUFFALO) = true := by
      simp only [List.any_eq_true, not_exists]
      intro e
      intro hcontra
      obtain ⟨he, htype⟩ := hcontra
      exact hnobuf e he (by simpa using htype)
    simp [Board.check_for_winner, hscan, hnostuck, hany]
  · intro hcross hnostuck hbuf
    have hscan : ¬ b.bottom_row_scan = true := fun h =>
      hcross ((bottom_row_scan_iff b hb).mp h)
    have hany : b.pieces.any (fun e => e.2.type = PieceType.BUFFALO) = true := by
      obtain ⟨e, he, htype⟩ := hbuf
      exact List.any_eq_true.mpr ⟨e, he, by simpa using htype⟩
    simp [Board.check_for_winner, hscan, hnostuck, hany]

/-- C2 witness: the theorem applied to the initial board, which is ongoing. -/
theorem C2_check_for_winner_witness :
    Board.init.pieces_in_bounds ∧
    ((Board.init.check_for_winner =
        (some Player.BUFFALO, some GameOverReason.BUFFALO_CROSSED) ↔
      buffalo_on_bottom_row Board.init) ∧
    (¬ buffalo_on_bottom_row Board.init → Board.init.current_player = Player.BUFFALO →
      Board.init.legal_moves = [] →
      Board.init.check_for_winner =
        (some Player.HUNTERS, some GameOverReason.BUFFALO_STUCK)) ∧
    (¬ buffalo_on_bottom_row Board.init →
      ¬ (Board.init.current_player = Player.BUFFALO ∧ Board.init.legal_moves = []) →
      (∀ e ∈ Board.init.pieces, e.2.type ≠ PieceType.BUFFALO) →
      Board.init.check_for_winner =
        (some Player.HUNTERS, some GameOverReason.BUFFALO_EXTINCT)) ∧
    (¬ buffalo_on_bottom_row Board.init →
      ¬ (Board.init.current_player = Player.BUFFALO ∧ Board.init.legal_moves = []) →
      (∃ e ∈ Board.init.pieces, e.2.type = PieceType.BUFFALO) →
      Board.init.check_for_winner = (none, none)) ∧
    stuck_board.check_for_winner =
      (some Player.HUNTERS, some GameOverReason.BUFFALO_STUCK)) :=
  ⟨by unfold Board.pieces_in_bounds; decide,
    C2_check_for_winner Board.init (by unfold Board.pieces_in_bounds; decide)⟩

lemma dictSet_keys_sub {l : List ((Int × Int) × Piece)} {k k0 : Int × Int} {v : Piece}
    (h : k0 ∈ (dictSet l k v).map Prod.fst) : k0 = k ∨ k0 ∈ l.map Prod.fst := by
  induction l with
  | nil =>
    rw [show dictSet [] k v = [(k, v)] from rfl, List.map_cons, List.mem_cons] at h
    rcases h with h | h
    · exact Or.inl h
    · simp at h
  | cons e rest ih =>
    obtain ⟨k', v'⟩ := e
    by_cases hk : k' = k
    · subst hk
      rw [show dictSet ((k', v') :: rest) k' v = (k', v) :: rest from by
          simp [dictSet], List.map_cons, List.mem_cons] at h
      rcases h with h | h
      · exact Or.inl h
      · exact Or.inr (by rw [List.map_cons, List.mem_cons]; exact Or.inr h)
    · rw [show dictSet ((k', v') :: rest) k v = (k', v') :: dictSet rest k v from by
          simp [dictSet, hk], List.map_cons, List.mem_cons] at h
      rcases h with h | h
      · exact Or.inr (by rw [List.map_cons, List.mem_cons]; exact Or.inl h)
      · rcases ih h with h2 | h2
        · exact Or.inl h2
        · exact Or.inr (by rw [List.map_cons, List.mem_cons]; exact Or.inr h2)

lemma dictSet_keys_nodup {l : List ((Int × Int) × Piece)} {k : Int × Int} {v : Piece}
    (h : (l.map Prod.fst).Nodup) : ((dictSet l k v).map Prod.fst).Nodup := by
  induction l with
  | nil => simp [dictSet]
  | cons e rest ih =>
    obtain ⟨k', v'⟩ := e
    simp only [List.map_cons, List.nodup_cons] at h
    by_cases hk : k' = k
    · subst hk
      rw [show dictSet ((k', v') :: rest) k' v = (k', v) :: rest from by simp [dictSet],
        List.map_cons, List.nodup_cons]
      exact h
    · rw [show dictSet ((k', v') :: rest) k v = (k', v') :: dictSet rest k v from by
          simp [dictSet, hk], List.map_cons, List.nodup_cons]
      refine ⟨?_, ih h.2⟩
      intro hcontra
      rcases dictSet_keys_sub hcontra with h2 | h2
      · exact hk h2
      · exact h.1 h2

/-- C7: `move_piece` rejects exactly the no-piece, wrong-owner and
illegal-destination requests, and on success captures whatever stood on the
destination, relocates the moving piece, increments the move counter, flips
the side to move, and returns the terminal-state check of the resulting board
together with the captured piece kind. -/
theorem C7_move_piece (b : Board) (fx fy tx ty : Int) (wr : Bool)
    (hnd : (b.pieces.map Prod.fst).Nodup) :
    ((∃ e, (b.move_piece fx fy tx ty wr).1 = .error e) ↔
      b.get_piece_at fx fy = none ∨
      (∃ p, b.get_piece_at fx fy = some p ∧ p.player ≠ b.current_player) ∨
      (∃ p, b.get_piece_at fx fy = some p ∧ b.is_valid_move p fx fy tx ty = false)) ∧
    (∀ p, b.get_piece_at fx fy = some p → p.player = b.current_player →
      b.is_valid_move p fx fy tx ty = true →
      (b.move_piece fx fy tx ty wr).2.get_piece_at tx ty = some p ∧
      (b.move_piece fx fy tx ty wr).2.get_piece_at fx fy = none ∧
      (∀ x y : Int, ¬(x = fx ∧ y = fy) → ¬(x = tx ∧ y = ty) →
        (b.move_piece fx fy tx ty wr).2.get_piece_at x y = b.get_piece_at x y) ∧
      (b.move_piece fx fy tx ty wr).2.move_number = b.move_number + 1 ∧
      (b.move_piece fx fy tx ty wr).2.current_player = switch_player b.current_player ∧
      ∃ rec, (b.move_piece fx fy tx ty wr).1 =
        .ok ((b.get_piece_at tx ty).map Piece.type,
          ((b.move_piece fx fy tx ty wr).2.check_for_winner).1,
          ((b.move_piece fx fy tx ty wr).2.check_for_winner).2, rec)) := by
  constructor
  · cases hget : b.get_piece_at fx fy with
    | none => simp [Board.move_piece, hget]
    | some p =>
      by_cases hp : p.player = b.current_player
      · by_cases hv : b.is_valid_move p fx fy tx ty = true
        · simp [Board.move_piece, hget, hp, hv]
        · have hvf : b.is_valid_move p fx fy tx ty = false := by simpa using hv
          simp [Board.move_piece, hget, hp, hv, hvf]
      · simp [Board.move_piece, hget, hp]
  · intro p hget hp hv
    have hne : ¬(fx = tx ∧ fy = ty) := (valid_imp_basic hv).2
    have hkey : ((fx, fy) : Int × Int) ≠ (tx, ty) := by
      intro hcontra
      exact hne ⟨congrArg Prod.fst hcontra, congrArg Prod.snd hcontra⟩
    have hkey2 : ((tx, ty) : Int × Int) ≠ (fx, fy) := fun h => hkey h.symm
    have hmp2 : (b.move_piece fx fy tx ty wr).2 =
        { pieces := dictDel (dictSet b.pieces (tx, ty) p) (fx, fy),
          move_number := b.move_number + 1,
          current_player := switch_player b.current_player } := by
      simp [Board.move_piece, hget, hp, hv]
    refine ⟨?_, ?_, ?_, ?_, ?_, ?_⟩
    · rw [hmp2]
      simp only [Board.get_piece_at]
      rw [dictGet_dictDel_ne _ _ _ hkey2.symm, dictGet_dictSet, if_pos rfl]
    · rw [hmp2]
      simp only [Board.get_piece_at]
      exact dictGet_dictDel_self (dictSet_keys_nodup hnd)
    · intro x y hxf hxt
      have h1 : ((fx, fy) : Int × Int) ≠ (x, y) := by
        intro hcontra
        exact hxf ⟨(congrArg Prod.fst hcontra).symm, (congrArg Prod.snd hcontra).symm⟩
      have h2 : ((tx, ty) : Int × Int) ≠ (x, y) := by
        intro hcontra
        exact hxt ⟨(congrArg Prod.fst hcontra).symm, (congrArg Prod.snd hcontra).symm⟩
      rw [hmp2]
      simp only [Board.get_piece_at]
      rw [dictGet_dictDel_ne _ _ _ h1, dictGet_dictSet, if_neg h2]
    · rw [hmp2]
    · rw [hmp2]
    · rw [hmp2]
      refine ⟨if wr = true then
          some { move_number := b.move_number + 1, from_pos := ⟨fx, fy⟩,
                 to_pos := ⟨tx, ty⟩, player := b.current_player, piece_type := p.type,
                 pieces_before := b.pieces,
                 pieces_after := dictDel (dictSet b.pieces (tx, ty) p) (fx, fy),
                 captured_piece := (b.get_piece_at tx ty).map Piece.type,
                 winner_after_move :=
                   ({ pieces := dictDel (dictSet b.pieces (tx, ty) p) (fx, fy),
                      current_player := switch_player b.current_player,
                      move_number := b.move_number + 1 } : Board).check_for_winner.1,
                 game_over_reason :=
                   ({ pieces := dictDel (dictSet b.pieces (tx, ty) p) (fx, fy),
                      current_player := switch_player b.current_player,
                      move_number := b.move_number + 1 } : Board).check_for_winner.2 }
        else none, ?_⟩
      simp [Board.move_piece, hget, hp, hv]

/-- C7 witness: the theorem applied to the opening buffalo move of the initial
board. -/
theorem C7_move_piece_witness :
    ((Board.init.pieces.map Prod.fst).Nodup ∧
      Board.init.get_piece_at 0 0 = some ⟨.BUFFALO, .BUFFALO⟩ ∧
      (Piece.mk .BUFFALO .BUFFALO).player = Board.init.current_player ∧
      Board.init.is_valid_move ⟨.BUFFALO, .BUFFALO⟩ 0 0 0 1 = true) ∧
    ((Board.init.move_piece 0 0 0 1 true).2.get_piece_at 0 1 =
        some ⟨.BUFFALO, .BUFFALO⟩ ∧
      (Board.init.move_piece 0 0 0 1 true).2.get_piece_at 0 0 = none ∧
      (Board.init.move_piece 0 0 0 1 true).2.move_number =
        Board.init.move_number + 1 ∧
      (Board.init.move_piece 0 0 0 1 true).2.current_player =
        switch_player Board.init.current_player) :=
  have h := (C7_move_piece Board.init 0 0 0 1 true (by decide)).2
    ⟨.BUFFALO, .BUFFALO⟩ (by decide) rfl (by decide)
  ⟨⟨by decide, by decide, rfl, by decide⟩, h.1, h.2.1, h.2.2.2.1, h.2.2.2.2.1⟩

/-- C10: when `move_piece` raises, the board is exactly as it was before the
call: all three validations precede the first mutation. -/
theorem C10_move_piece_atomic (b : Board) (fx fy tx ty : Int) (wr : Bool)
    (e : String) (h : (b.move_piece fx fy tx ty wr).1 = .error e) :
    (b.move_piece fx fy tx ty wr).2 = b := by
  cases hget : b.get_piece_at fx fy with
  | none => simp [Board.move_piece, hget]
  | some p =>
    by_cases hp : p.player = b.current_player
    · by_cases hv : b.is_valid_move p fx fy tx ty = true
      · simp [Board.move_piece, hget, hp, hv] at h
      · simp [Board.move_piece, hget, hp, hv]
    · simp [Board.move_piece, hget, hp]

/-- C10 witness: moving from an empty square of the initial board fails and
leaves the board untouched. -/
theorem C10_move_piece_atomic_witness :
    (Board.init.move_piece 5 3 5 4 true).1 =
        .error "No piece at the starting position" ∧
      (Board.init.move_piece 5 3 5 4 true).2 = Board.init :=
  ⟨by rfl, C10_move_piece_atomic Board.init 5 3 5 4 true
    "No piece at the starting position" (by rfl)⟩

/-- C9: contents of the default-constructed board, and its legal moves: eleven
buffalo across row 0, dogs on (3,5),(4,5),(6,5),(7,5), the chief on (5,5),
nothing else, buffalo to move at move number 0, and exactly eleven legal
moves, each a buffalo stepping one row forward in its own column. -/
theorem C9_initial_board :
    (Board.init.pieces.filter fun e => e.2.type = PieceType.BUFFALO).map Prod.fst =
      [(0, 0), (1, 0), (2, 0), (3, 0), (4, 0), (5, 0), (6, 0), (7, 0), (8, 0),
        (9, 0), (10, 0)] ∧
    (Board.init.pieces.filter fun e => e.2.type = PieceType.DOG).map Prod.fst =
      [(3, 5), (4, 5), (6, 5), (7, 5)] ∧
    (Board.init.pieces.filter fun e => e.2.type = PieceType.CHIEF).map Prod.fst =
      [(5, 5)] ∧
    Board.init.pieces.length = Board.width + 5 ∧
    Board.init.current_player = Player.BUFFALO ∧
    Board.init.move_number = 0 ∧
    Board.init.legal_moves.length = Board.width ∧
    (∀ m ∈ Board.init.legal_moves, m.piece.type = PieceType.BUFFALO ∧
      m.end_pos.x = m.start.x ∧ m.end_pos.y = m.start.y + 1) ∧
    Board.init.legal_moves.map (fun m => m.start.x) =
      [0, 1, 2, 3, 4, 5, 6, 7, 8, 9, 10] := by
  decide

/-- The first-legal-move controller used to exercise the game loop. -/
def first_move_controller : Option (Game → Option Move) :=
  some fun g => g.board.legal_moves.head?

/-- C1 (failing-input evaluation): on a fresh game, the first `step` applies
the opening buffalo move and `check_for_winner` reports no winner, yet the
game is marked over (because `_build_record` tests the winner 2-tuple against
None), so the next `step` is a no-op returning nothing. -/
theorem C1_step_always_terminal :
    ((Game.init Board.init).step first_move_controller none).1.map
        (Option.map fun rec => (rec.move_made, rec.game_over, rec.winner)) =
      .ok (some (true, true, (none, none))) ∧
    ((Game.init Board.init).step first_move_controller none).2.board.check_for_winner =
      (none, none) ∧
    ((Game.init Board.init).step first_move_controller none).2.game_over = true ∧
    ((Game.init Board.init).step first_move_controller none).2.winner =
      some (none, none) ∧
    (((Game.init Board.init).step first_move_controller none).2.step
        first_move_controller none).1 = .ok none ∧
    (((Game.init Board.init).step first_move_controller none).2.step
        first_move_controller none).2 =
      ((Game.init Board.init).step first_move_controller none).2 := by
  exact ⟨rfl, by decide, by decide, by decide, rfl, by decide⟩

/-! Round-trip lemmas for the board text format. -/

lemma ofChar_value (t : PieceType) : PieceType.ofChar t.value = some t := by
  cases t <;> rfl

lemma value_ne_dot (t : PieceType) : t.value ≠ '.' := by
  cases t <;> decide

lemma value_ne_slash (t : PieceType) : t.value ≠ '/' := by
  cases t <;> decide

lemma serialize_row_length (b : Board) (y : Nat) :
    (b.serialize_row y).length = Board.width := by
  simp [Board.serialize_row]

lemma slash_not_mem_serialize_row (b : Board) (y : Nat) :
    '/' ∉ b.serialize_row y := by
  simp only [Board.serialize_row, List.mem_map, List.mem_range, not_exists]
  intro x
  rintro ⟨-, hc⟩
  cases hgp : b.get_piece_at (x : Int) (y : Int) with
  | none => rw [hgp] at hc; simp at hc
  | some p => rw [hgp] at hc; exact value_ne_slash p.type (by simpa using hc)

lemma splitOn_serialize (b : Board) :
    (Board.serialize b).splitOn '/' = (List.range Board.height).map b.serialize_row := by
  refine List.splitOn_intercalate ((List.range Board.height).map b.serialize_row) '/' ?_ ?_
  · intro l hl
    rw [List.mem_map] at hl
    obtain ⟨y, -, rfl⟩ := hl
    exact slash_not_mem_serialize_row b y
  · simp [Board.height]

/-- The placements recovered from one serialized row: one entry per occupied
square, in increasing column order. -/
def row_entries (b : Board) (y : Nat) : List ((Int × Int) × Piece) :=
  (List.range Board.width).filterMap fun (x : Nat) =>
    (b.get_piece_at (x : Int) (y : Int)).map fun p => (((x : Int), (y : Int)), p)

lemma parseRowChars_range (b : Board) (hk : b.kind_owner_invariant) (y : Nat) :
    ∀ (n x0 : Nat),
      parseRowChars y ((List.range' x0 n).map fun (x : Nat) =>
        match b.get_piece_at (x : Int) (y : Int) with
        | some piece => piece.type.value
        | none => '.') x0
      = .ok ((List.range' x0 n).filterMap fun (x : Nat) =>
          (b.get_piece_at (x : Int) (y : Int)).map fun p =>
            (((x : Int), (y : Int)), p)) := by
  intro n
  induction n with
  | zero => intro x0; rfl
  | succ n ih =>
    intro x0
    rw [List.range'_succ x0 n 1, List.map_cons, List.filterMap_cons]
    cases hgp : b.get_piece_at (x0 : Int) (y : Int) with
    | none =>
      simp only [hgp, Option.map_none]
      rw [show parseRowChars y ('.' ::
          (List.range' (x0 + 1) n).map fun (x : Nat) =>
            match b.get_piece_at (x : Int) (y : Int) with
            | some piece => piece.type.value
            | none => '.') x0
        = parseRowChars y ((List.range' (x0 + 1) n).map fun (x : Nat) =>
            match b.get_piece_at (x : Int) (y : Int) with
            | some piece => piece.type.value
            | none => '.') (x0 + 1) from by simp [parseRowChars]]
      exact ih (x0 + 1)
    | some p =>
      have howner : p.player = (if p.type = PieceType.BUFFALO then Player.BUFFALO
          else Player.HUNTERS) := hk _ (dictGet_mem hgp)
      have hpiece : (⟨p.type, if p.type = PieceType.BUFFALO then Player.BUFFALO
          else Player.HUNTERS⟩ : Piece) = p := by
        obtain ⟨pt, pp⟩ := p
        simp only at howner
        rw [howner]
      simp only [hgp, Option.map_some]
      rw [show parseRowChars y (p.type.value ::
          (List.range' (x0 + 1) n).map fun (x : Nat) =>
            match b.get_piece_at (x : Int) (y : Int) with
            | some piece => piece.type.value
            | none => '.') x0
        = (parseRowChars y ((List.range' (x0 + 1) n).map fun (x : Nat) =>
            match b.get_piece_at (x : Int) (y : Int) with
            | some piece => piece.type.value
            | none => '.') (x0 + 1)).map
            (fun l => (((x0 : Int), (y : Int)),
              (⟨p.type, if p.type = PieceType.BUFFALO then Player.BUFFALO
                else Player.HUNTERS⟩ : Piece)) :: l) from by
          simp [parseRowChars, value_ne_dot p.type, ofChar_value p.type]]
      rw [ih (x0 + 1), hpiece]
      rfl

lemma parseRowChars_serialize_row (b : Board) (hk : b.kind_owner_invariant) (y : Nat) :
    parseRowChars y (b.serialize_row y) 0 = .ok (row_entries b y) := by
  have := parseRowChars_range b hk y Board.width 0
  rwa [← List.range_eq_range'] at this

/-- All placements recovered from a full serialized board, in row-major order. -/
def all_entries (b : Board) : List ((Int × Int) × Piece) :=
  (List.range Board.height).flatMap (row_entries b)

lemma parseRows_range (b : Board) (hk : b.kind_owner_invariant) :
    ∀ (n y0 : Nat),
      parseRows ((List.range' y0 n).map b.serialize_row) y0
        = .ok ((List.range' y0 n).flatMap (row_entries b)) := by
  intro n
  induction n with
  | zero => intro y0; rfl
  | succ n ih =>
    intro y0
    rw [List.range'_succ y0 n 1, List.map_cons, List.flatMap_cons]
    show parseRows (b.serialize_row y0 :: (List.range' (y0 + 1) n).map b.serialize_row) y0 = _
    rw [show parseRows (b.serialize_row y0 ::
          (List.range' (y0 + 1) n).map b.serialize_row) y0
        = if (b.serialize_row y0).length ≠ Board.width then
            .error "Serialized board has an unexpected row width."
          else do
            let a ← parseRowChars y0 (b.serialize_row y0) 0
            let c ← parseRows ((List.range' (y0 + 1) n).map b.serialize_row) (y0 + 1)
            .ok (a ++ c) from rfl]
    rw [if_neg (by simp [serialize_row_length]),
      parseRowChars_serialize_row b hk y0, ih (y0 + 1)]
    rfl

lemma deserialize_serialize (b : Board) (hk : b.kind_owner_invariant) :
    Board.deserialize (Board.serialize b)
      = .ok { pieces := all_entries b, current_player := .BUFFALO, move_number := 0 } := by
  have hsplit := splitOn_serialize b
  have hrows := parseRows_range b hk Board.height 0
  rw [← List.range_eq_range'] at hrows
  simp only [Board.deserialize, hsplit, List.length_map, List.length_range, ne_eq,
    not_true_eq_false, if_false, hrows]
  rfl

lemma dictGet_append_some {l1 l2 : List ((Int × Int) × Piece)} {q : Int × Int}
    {p : Piece} (h : dictGet l1 q = some p) : dictGet (l1 ++ l2) q = some p := by
  induction l1 with
  | nil => simp [dictGet] at h
  | cons e rest ih =>
    obtain ⟨k, v⟩ := e
    by_cases hk : k = q
    · simp only [dictGet, if_pos hk] at h
      simp only [List.cons_append, dictGet, if_pos hk]
      exact h
    · simp only [dictGet, if_neg hk] at h
      simp only [List.cons_append, dictGet, if_neg hk]
      exact ih h

lemma dictGet_append_none {l1 l2 : List ((Int × Int) × Piece)} {q : Int × Int}
    (h : dictGet l1 q = none) : dictGet (l1 ++ l2) q = dictGet l2 q := by
  induction l1 with
  | nil => rfl
  | cons e rest ih =>
    obtain ⟨k, v⟩ := e
    by_cases hk : k = q
    · simp [dictGet, if_pos hk] at h
    · simp only [dictGet, if_neg hk] at h
      simp only [List.cons_append, dictGet, if_neg hk]
      exact ih h

lemma mem_row_entries {b : Board} {y : Nat} {e : (Int × Int) × Piece}
    (h : e ∈ row_entries b y) :
    ∃ x : Nat, x < Board.width ∧ e.1 = ((x : Int), (y : Int)) ∧
      b.get_piece_at (x : Int) (y : Int) = some e.2 := by
  simp only [row_entries, List.mem_filterMap, List.mem_range] at h
  obtain ⟨x, hx, hmap⟩ := h
  cases hgp : b.get_piece_at (x : Int) (y : Int) with
  | none => rw [hgp] at hmap; simp at hmap
  | some p =>
    rw [hgp] at hmap
    simp only [Option.map_some', Option.some_inj] at hmap
    exact ⟨x, hx, by rw [← hmap], by rw [hgp, ← hmap]⟩

lemma dictGet_row_entries_ne {b : Board} {y : Nat} {q : Int × Int}
    (h : q.2 ≠ (y : Int)) : dictGet (row_entries b y) q = none := by
  refine dictGet_eq_none_of_not_mem_keys ?_
  intro e he hcontra
  obtain ⟨x, -, hkey, -⟩ := mem_row_entries he
  rw [hcontra] at hkey
  exact h (congrArg Prod.snd hkey)

lemma dictGet_filterMap_cols (b : Board) (y : Nat) (x : Int) (cols : List Nat) :
    dictGet (cols.filterMap fun (c : Nat) =>
        (b.get_piece_at (c : Int) (y : Int)).map fun p =>
          (((c : Int), (y : Int)), p)) (x, (y : Int))
      = if x ∈ cols.map (fun (c : Nat) => (c : Int)) then b.get_piece_at x (y : Int)
        else none := by
  induction cols with
  | nil => simp [dictGet]
  | cons c rest ih =>
    rw [List.filterMap_cons]
    cases hgp : b.get_piece_at (c : Int) (y : Int) with
    | none =>
      simp only [Option.map_none']
      rw [ih]
      by_cases hc : x = (c : Int)
      · subst hc
        by_cases hmem : (c : Int) ∈ rest.map (fun (a : Nat) => (a : Int)) <;>
          simp [hmem, hgp]
      · have hc2 : ¬ (c : Int) = x := fun h => hc h.symm
        simp [hc, hc2]
    | some p =>
      simp only [Option.map_some']
      by_cases hc : x = (c : Int)
      · subst hc
        simp only [dictGet, if_pos rfl]
        simp [hgp]
      · have hkey : (((c : Int), (y : Int)) : Int × Int) ≠ (x, (y : Int)) := by
          intro hcontra
          exact hc (congrArg Prod.fst hcontra).symm
        simp only [dictGet, if_neg hkey]
        rw [ih]
        have hc2 : ¬ (c : Int) = x := fun h => hc h.symm
        simp [hc, hc2]

lemma dictGet_row_entries (b : Board) (y : Nat) (x : Int) :
    dictGet (row_entries b y) (x, (y : Int))
      = if 0 ≤ x ∧ x < (Board.width : Int) then b.get_piece_at x (y : Int) else none := by
  rw [row_entries, dictGet_filterMap_cols]
  congr 1
  simp only [List.mem_map, List.mem_range, eq_iff_iff]
  constructor
  · rintro ⟨c, hc, rfl⟩
    constructor
    · exact Int.natCast_nonneg c
    · exact_mod_cast hc
  · rintro ⟨h0, h1⟩
    refine ⟨x.toNat, ?_, Int.toNat_of_nonneg h0⟩
    omega

lemma dictGet_flatMap_rows (b : Board) (x : Int) (yn : Nat) :
    ∀ rows : List Nat, rows.Nodup →
      dictGet (rows.flatMap (row_entries b)) (x, (yn : Int)) =
        if yn ∈ rows then dictGet (row_entries b yn) (x, (yn : Int)) else none := by
  intro rows
  induction rows with
  | nil => simp [dictGet]
  | cons r rest ih =>
    intro hnd
    rw [List.nodup_cons] at hnd
    rw [List.flatMap_cons]
    by_cases hr : r = yn
    · subst hr
      cases hd : dictGet (row_entries b r) (x, (r : Int)) with
      | some p =>
        rw [dictGet_append_some hd]
        simp [hd]
      | none =>
        rw [dictGet_append_none hd, ih hnd.2, if_neg hnd.1]
        simp [hd]
    · have hcast : ((yn : Int)) ≠ ((r : Int)) := by
        exact_mod_cast Ne.symm hr
      have hne : dictGet (row_entries b r) (x, (yn : Int)) = none :=
        dictGet_row_entries_ne hcast
      rw [dictGet_append_none hne, ih hnd.2]
      have hr2 : ¬ yn = r := fun h => hr h.symm
      simp [List.mem_cons, hr2]

lemma all_entries_bounds {b : Board} {e : (Int × Int) × Piece}
    (h : e ∈ all_entries b) :
    0 ≤ e.1.1 ∧ e.1.1 < (Board.width : Int) ∧ 0 ≤ e.1.2 ∧
      e.1.2 < (Board.height : Int) := by
  simp only [all_entries, List.mem_flatMap, List.mem_range] at h
  obtain ⟨y, hy, he⟩ := h
  obtain ⟨x, hx, hkey, -⟩ := mem_row_entries he
  rw [hkey]
  refine ⟨Int.natCast_nonneg x, ?_, Int.natCast_nonneg y, ?_⟩
  · show ((x : Nat) : Int) < (Board.width : Int)
    exact_mod_cast hx
  · show ((y : Nat) : Int) < (Board.height : Int)
    exact_mod_cast hy

lemma dictGet_all_entries (b : Board) (hb : b.pieces_in_bounds) (x y : Int) :
    dictGet (all_entries b) (x, y) = b.get_piece_at x y := by
  by_cases hin : 0 ≤ x ∧ x < (Board.width : Int) ∧ 0 ≤ y ∧ y < (Board.height : Int)
  · obtain ⟨hx0, hx1, hy0, hy1⟩ := hin
    have hy : y = ((y.toNat : Nat) : Int) := (Int.toNat_of_nonneg hy0).symm
    rw [hy, all_entries, dictGet_flatMap_rows b x y.toNat _ (List.nodup_range _),
      if_pos (by rw [List.mem_range]; omega), dictGet_row_entries,
      if_pos ⟨hx0, hx1⟩]
  · have hleft : dictGet (all_entries b) (x, y) = none := by
      refine dictGet_eq_none_of_not_mem_keys ?_
      intro e he hcontra
      have := all_entries_bounds he
      rw [hcontra] at this
      exact hin ⟨this.1, this.2.1, this.2.2.1, this.2.2.2⟩
    have hright : b.get_piece_at x y = none := by
      cases hgp : b.get_piece_at x y with
      | none => rfl
      | some p =>
        have := hb _ (dictGet_mem hgp)
        exact absurd ⟨this.1, this.2.1, this.2.2.1, this.2.2.2⟩ hin
    rw [hleft, hright]

/-- C3: serializing then deserializing an in-bounds, owner-consistent board
reproduces exactly the same placement mapping, and every successfully
deserialized board has buffalo to move and move counter zero, whatever the
input text encoded. -/
theorem C3_serialize_roundtrip :
    (∀ b : Board, b.pieces_in_bounds → b.kind_owner_invariant →
      ∃ b2, Board.deserialize (Board.serialize b) = .ok b2 ∧
        ∀ x y : Int, b2.get_piece_at x y = b.get_piece_at x y) ∧
    (∀ (s : List Char) (b2 : Board), Board.deserialize s = .ok b2 →
      b2.current_player = Player.BUFFALO ∧ b2.move_number = 0) := by
  constructor
  · intro b hb hk
    refine ⟨_, deserialize_serialize b hk, ?_⟩
    intro x y
    exact dictGet_all_entries b hb x y
  · intro s b2 h
    simp only [Board.deserialize] at h
    by_cases hlen : (s.splitOn '/').length ≠ Board.height
    · rw [if_pos hlen] at h
      simp at h
    · rw [if_neg hlen] at h
      cases hpr : parseRows (s.splitOn '/') 0 with
      | error e => rw [hpr] at h; simp [Except.map] at h
      | ok l =>
        rw [hpr] at h
        simp only [Except.map] at h
        obtain rfl := Except.ok.inj h
        exact ⟨rfl, rfl⟩

/-- C3 witness: the theorem applied to the initial board. -/
theorem C3_serialize_roundtrip_witness :
    Board.init.pieces_in_bounds ∧ Board.init.kind_owner_invariant ∧
    (∃ b2, Board.deserialize (Board.serialize Board.init) = .ok b2 ∧
      ∀ x y : Int, b2.get_piece_at x y = Board.init.get_piece_at x y) :=
  have h1 : Board.init.pieces_in_bounds := by
    unfold Board.pieces_in_bounds
    decide
  have h2 : Board.init.kind_owner_invariant := by
    unfold Board.kind_owner_invariant Piece.owner_consistent
    decide
  ⟨h1, h2, C3_serialize_roundtrip.1 Board.init h1 h2⟩

/-! Failure characterization of `deserialize`. -/

lemma error_ne_ok {α β : Type} (e : α) (v : β) :
    (Except.error e : Except α β) ≠ .ok v :=
  fun h => Except.noConfusion h

lemma except_error_iff_not_ok {α β : Type} (x : Except α β) :
    (∃ e, x = .error e) ↔ ¬ ∃ v, x = .ok v := by
  cases x <;> simp

lemma ofChar_eq_none_iff (c : Char) :
    PieceType.ofChar c = none ↔ c ≠ 'B' ∧ c ≠ 'D' ∧ c ≠ 'C' := by
  unfold PieceType.ofChar
  split_ifs with h1 h2 h3 <;> simp_all

lemma parseRowChars_ok_iff (y : Nat) (row : List Char) : ∀ x0 : Nat,
    (∃ l, parseRowChars y row x0 = .ok l) ↔
      ∀ c ∈ row, c = '.' ∨ PieceType.ofChar c ≠ none := by
  induction row with
  | nil => intro x0; simp [parseRowChars]
  | cons c rest ih =>
    intro x0
    by_cases hdot : c = '.'
    · subst hdot
      rw [show parseRowChars y ('.' :: rest) x0 = parseRowChars y rest (x0 + 1) from by
        simp [parseRowChars]]
      simp only [List.mem_cons]
      constructor
      · intro h d hd
        rcases hd with rfl | hd
        · exact Or.inl rfl
        · exact ((ih (x0 + 1)).mp h) d hd
      · intro h
        exact (ih (x0 + 1)).mpr fun d hd => h d (Or.inr hd)
    · cases hoc : PieceType.ofChar c with
      | none =>
        rw [show parseRowChars y (c :: rest) x0 =
            .error ("Unknown piece token: " ++ String.mk [c]) from by
          simp [parseRowChars, hdot, hoc]]
        simp only [List.mem_cons]
        constructor
        · rintro ⟨l, hl⟩
          exact absurd hl (by simp)
        · intro h
          rcases h c (Or.inl rfl) with h | h
          · exact absurd h hdot
          · exact absurd hoc h
      | some t =>
        rw [show parseRowChars y (c :: rest) x0 =
            (parseRowChars y rest (x0 + 1)).map
              (fun l => (((x0 : Int), (y : Int)),
                (⟨t, if t = PieceType.BUFFALO then Player.BUFFALO
                  else Player.HUNTERS⟩ : Piece)) :: l) from by
          simp [parseRowChars, hdot, hoc]]
        simp only [List.mem_cons]
        constructor
        · rintro ⟨l, hl⟩
          intro d hd
          rcases hd with rfl | hd
          · exact Or.inr (by simp [hoc])
          · refine ((ih (x0 + 1)).mp ?_) d hd
            cases hrec : parseRowChars y rest (x0 + 1) with
            | error e => rw [hrec] at hl; simp [Except.map] at hl
            | ok l2 => exact ⟨l2, rfl⟩
        · intro h
          obtain ⟨l, hl⟩ := (ih (x0 + 1)).mpr fun d hd => h d (Or.inr hd)
          exact ⟨_, by rw [hl]; rfl⟩

lemma parseRows_ok_iff (rows : List (List Char)) : ∀ y0 : Nat,
    (∃ l, parseRows rows y0 = .ok l) ↔
      ∀ row ∈ rows, row.length = Board.width ∧
        ∀ c ∈ row, c = '.' ∨ PieceType.ofChar c ≠ none := by
  induction rows with
  | nil => intro y0; simp [parseRows]
  | cons row rest ih =>
    intro y0
    by_cases hlen : row.length = Board.width
    · rw [show parseRows (row :: rest) y0 = do
          let a ← parseRowChars y0 row 0
          let c ← parseRows rest (y0 + 1)
          .ok (a ++ c) from by simp [parseRows, hlen]]
      constructor
      · rintro ⟨l, hl⟩
        cases hrc : parseRowChars y0 row 0 with
        | error e => rw [hrc] at hl; exact absurd hl (error_ne_ok _ _)
        | ok l1 =>
          cases hrr : parseRows rest (y0 + 1) with
          | error e =>
            rw [hrc, hrr] at hl
            exact absurd hl (error_ne_ok _ _)
          | ok l2 =>
            intro r hr
            rcases List.mem_cons.mp hr with rfl | hr
            · exact ⟨hlen, (parseRowChars_ok_iff y0 r 0).mp ⟨l1, hrc⟩⟩
            · exact ((ih (y0 + 1)).mp ⟨l2, hrr⟩) r hr
      · intro h
        obtain ⟨l1, hl1⟩ := (parseRowChars_ok_iff y0 row 0).mpr
          (h row (List.mem_cons_self _ _)).2
        obtain ⟨l2, hl2⟩ := (ih (y0 + 1)).mpr fun r hr => h r (List.mem_cons_of_mem _ hr)
        exact ⟨l1 ++ l2, by rw [hl1, hl2]; rfl⟩
    · rw [show parseRows (row :: rest) y0 =
          .error "Serialized board has an unexpected row width." from by
        simp [parseRows, hlen]]
      constructor
      · rintro ⟨l, hl⟩
        exact absurd hl (by simp)
      · intro h
        exact absurd (h row (List.mem_cons_self _ _)).1 hlen

/-- C8: `deserialize` fails exactly when the slash-split row count is not the
board height, or some row is not exactly `width` characters, or some row
character is none of the four legal codes; a failure never returns a board. -/
theorem C8_deserialize_failure (s : List Char) :
    ((∃ e, Board.deserialize s = .error e) ↔
      (s.splitOn '/').length ≠ Board.height ∨
      (∃ row ∈ s.splitOn '/', row.length ≠ Board.width) ∨
      (∃ row ∈ s.splitOn '/', ∃ c ∈ row,
        c ≠ '.' ∧ c ≠ 'B' ∧ c ≠ 'D' ∧ c ≠ 'C')) ∧
    (∀ e, Board.deserialize s = .error e → ∀ b2, Board.deserialize s ≠ .ok b2) := by
  constructor
  · have hok : (∃ b2, Board.deserialize s = .ok b2) ↔
        ((s.splitOn '/').length = Board.height ∧ ∀ row ∈ s.splitOn '/',
          row.length = Board.width ∧
            ∀ c ∈ row, c = '.' ∨ PieceType.ofChar c ≠ none) := by
      simp only [Board.deserialize]
      by_cases hlen : (s.splitOn '/').length ≠ Board.height
      · rw [if_pos hlen]
        simp [hlen]
      · rw [if_neg hlen]
        push_neg at hlen
        cases hpr : parseRows (s.splitOn '/') 0 with
        | error e =>
          simp only [Except.map]
          constructor
          · rintro ⟨b2, hb2⟩
            exact absurd hb2 (error_ne_ok _ _)
          · rintro ⟨-, hall⟩
            obtain ⟨l, hl⟩ := (parseRows_ok_iff (s.splitOn '/') 0).mpr hall
            rw [hpr] at hl
            exact absurd hl (error_ne_ok _ _)
        | ok l =>
          simp only [Except.map]
          constructor
          · intro _
            exact ⟨hlen, (parseRows_ok_iff (s.splitOn '/') 0).mp ⟨l, hpr⟩⟩
          · intro _
            exact ⟨_, rfl⟩
    rw [except_error_iff_not_ok, hok]
    constructor
    · intro h
      by_cases hA : (s.splitOn '/').length = Board.height
      · have hnall : ¬ ∀ row ∈ s.splitOn '/', row.length = Board.width ∧
            ∀ c ∈ row, c = '.' ∨ PieceType.ofChar c ≠ none :=
          fun hall => h ⟨hA, hall⟩
        push_neg at hnall
        obtain ⟨row, hrow, hfail⟩ := hnall
        by_cases hB : row.length = Board.width
        · obtain ⟨c, hc, hnc⟩ := hfail hB
          refine Or.inr (Or.inr ⟨row, hrow, c, hc, hnc.1, ?_⟩)
          exact (ofChar_eq_none_iff c).mp hnc.2
        · exact Or.inr (Or.inl ⟨row, hrow, hB⟩)
      · exact Or.inl hA
    · rintro (h | ⟨row, hrow, hB⟩ | ⟨row, hrow, c, hc, hd1, hd2, hd3, hd4⟩) ⟨hA, hall⟩
      · exact h hA
      · exact hB (hall row hrow).1
      · rcases (hall row hrow).2 c hc with h2 | h2
        · exact hd1 h2
        · exact h2 ((ofChar_eq_none_iff c).mpr ⟨hd2, hd3, hd4⟩)
  · intro e he b2 hok2
    rw [he] at hok2
    exact absurd hok2 (by simp)

/-- C8 witness: the theorem applied to a three-character input, whose single
split row has the wrong count. -/
theorem C8_deserialize_failure_witness :
    ∃ e, Board.deserialize ('a' :: 'b' :: 'c' :: []) = .error e :=
  (C8_deserialize_failure ('a' :: 'b' :: 'c' :: [])).1.mpr (Or.inl (by decide))

end Buffalo
